import Mathlib

/-!
Verification development for the dual UART sniffer repository.

The repository contains two Arduino sketches:
* `mega.ino` — the dedicated-receiver variant (Arduino Mega, two hardware UARTs);
* an unnamed ESP8266 sketch — the shared-receiver variant (two SoftwareSerial
  ports, only one listening at a time, time-sliced).

The definitions below are a shallow embedding of the state and operations of
those sketches.  Machine bytes are modelled as `Nat` (the stored values are
always below 256 in practice; checksum arithmetic carries an explicit
`% 256`).  `millis()` is modelled as an explicit monotone `Nat` clock passed
to every operation; 32-bit wraparound of the clock is not modelled.
Serial output is modelled as lists of characters or abstract events.
-/

/-- Buffer capacity per channel (`BUFLEN` in both sketches). -/
def BUFLEN : Nat := 128

/-- Silence gap that closes a frame (`FRAME_GAP_MS` in both sketches). -/
def FRAME_GAP_MS : Nat := 25

/-- Time-slice length of the shared-receiver arbiter (`SWITCH_TIMEOUT_MS`). -/
def SWITCH_TIMEOUT_MS : Nat := 50

/-- Start byte of the known motor packet (`START_MOTOR`). -/
def START_MOTOR : Nat := 0x43

/-- Total length of the known motor packet (`LEN_MOTOR`). -/
def LEN_MOTOR : Nat := 9

/-- Start byte of the known LCD packet (`START_LCD`). -/
def START_LCD : Nat := 0x59

/-- Total length of the known LCD packet (`LEN_LCD`). -/
def LEN_LCD : Nat := 7

/-- Per-channel accumulator state (`struct ChanState`).  The source keeps a
fixed array `buf[BUFLEN]` plus a fill index `pos`; here `buf` is the list of
the `pos` stored bytes, so `pos = buf.length`. -/
structure ChanState where
  buf : List Nat
  overflow : Bool
  lastByteMs : Nat
deriving DecidableEq

/-- Initial, cleared channel state (as after `setup`). -/
def chInit : ChanState := ⟨[], false, 0⟩

/-- Model of `bufClear`: reset fill index and overflow flag. -/
def bufClear (ch : ChanState) : ChanState :=
  { ch with buf := [], overflow := false }

/-- Model of `bufAdd`: append the byte if capacity remains, otherwise set the
overflow flag; the last-activity time is updated unconditionally (the source
assigns `ch.lastByteMs = millis()` outside the capacity test). -/
def bufAdd (ch : ChanState) (b : Nat) (now : Nat) : ChanState :=
  if ch.buf.length < BUFLEN then
    { ch with buf := ch.buf ++ [b], lastByteMs := now }
  else
    { ch with overflow := true, lastByteMs := now }

/-- Model of `chk8_add`: 8-bit additive checksum step `(bval + cval) & 0xFF`. -/
def chk8_add (bval cval : Nat) : Nat := (bval + cval) % 256

/-- The inner checksum loop of `findPacket`: fold `chk8_add` over the listed
bytes starting from 0 (the loop `chk = chk8_add(buf[i+ii], chk)`). -/
def chkLoop (bs : List Nat) : Nat :=
  bs.foldl (fun chk b => chk8_add b chk) 0

/-- The scanning loop of `findPacket`: try offsets `i, i+1, ...`; `n` is the
number of remaining candidate offsets (`i + n = pos + 1 - len`).  At each
offset, first the start byte is compared, then the checksum over the first
`len - 1` bytes is compared with the last byte of the candidate window. -/
def scanFrom (buf : List Nat) (start len : Nat) : Nat → Nat → Option Nat
  | _, 0 => none
  | i, n + 1 =>
    if buf.getD i 0 = start then
      if chkLoop ((buf.drop i).take (len - 1)) = buf.getD (i + len - 1) 0 then
        some i
      else
        scanFrom buf start len (i + 1) n
    else
      scanFrom buf start len (i + 1) n

/-- Model of `findPacket`: reject `len < 2` or a buffer shorter than `len`,
otherwise scan offsets `i` with `i + len ≤ buf.length` in increasing order
and return the first hit (`-1` in the source is `none` here). -/
def findPacket (buf : List Nat) (start len : Nat) : Option Nat :=
  if len < 2 || buf.length < len then none
  else scanFrom buf start len 0 (buf.length + 1 - len)

/-- Spec-side matching predicate for claim C1, written from the words of the
spec: offset `i` is a match when the window fits, the first byte is the start
byte, and the sum of all window bytes except the last, reduced mod 256,
equals the last window byte. -/
def specMatchAt (buf : List Nat) (start len i : Nat) : Prop :=
  i + len ≤ buf.length ∧
  buf.getD i 0 = start ∧
  ((buf.drop i).take (len - 1)).sum % 256 = buf.getD (i + len - 1) 0

/-- Frame event emitted by a gap flush: the buffered bytes and the overflow
flag at the moment of the flush. -/
structure SnifferFrame where
  bytes : List Nat
  overflow : Bool
deriving DecidableEq

/-- Gap-flush test shared by `maybeFlushOnGap` (mega) and `checkFlush` plus
`printFrame` (shared variant): an empty channel does nothing; otherwise, if
`now - lastByteMs ≥ FRAME_GAP_MS`, the whole buffer is emitted as one frame
and the channel is cleared. -/
def maybeFlushOnGap (ch : ChanState) (now : Nat) : ChanState × Option SnifferFrame :=
  if ch.buf.length = 0 then (ch, none)
  else if FRAME_GAP_MS ≤ now - ch.lastByteMs then
    (bufClear ch, some ⟨ch.buf, ch.overflow⟩)
  else (ch, none)

/-- One polling cycle of a single channel, as a trace step: at time `t` the
cycle first drains at most one incoming byte (`bufAdd`), then runs the
gap-flush test.  A trace of such cycles models the main loop restricted to
one channel. -/
def runCycles : ChanState → List (Nat × Option Nat) → ChanState × List SnifferFrame
  | ch, [] => (ch, [])
  | ch, (t, ob) :: rest =>
    let ch1 := match ob with
      | some b => bufAdd ch b t
      | none => ch
    let p := maybeFlushOnGap ch1 t
    let q := runCycles p.1 rest
    (q.1, p.2.toList ++ q.2)

/-- Bytes delivered by a trace, in arrival order. -/
def cycleBytes (tr : List (Nat × Option Nat)) : List Nat :=
  tr.filterMap Prod.snd

/-- Arrival time of the last delivered byte of a trace (`t0` if none). -/
def lastByteTimeAux (t0 : Nat) : List (Nat × Option Nat) → Nat
  | [] => t0
  | (t, some _) :: rest => lastByteTimeAux t rest
  | (_, none) :: rest => lastByteTimeAux t0 rest

/-- Trace-level hypothesis of claims C2 and C3: times are nondecreasing along
the byte arrivals and, once a byte has arrived (`hasByte`), every later cycle
of the delivery phase happens strictly less than `FRAME_GAP_MS` after the
most recent byte (`lastT`). -/
def goodDelivery : Nat → Bool → List (Nat × Option Nat) → Bool
  | _, _, [] => true
  | lastT, hasByte, (t, ob) :: rest =>
    decide (lastT ≤ t) && (!hasByte || decide (t - lastT < FRAME_GAP_MS)) &&
    (match ob with
     | some _ => goodDelivery t true rest
     | none => goodDelivery lastT hasByte rest)

/-- Hex digit characters as printed by Arduino `Serial.print(b, HEX)`
(decimal digits, then uppercase letters). -/
def hexDigit (n : Nat) : Char :=
  if n < 10 then Char.ofNat (48 + n) else Char.ofNat (55 + n)

/-- Rendering of `Serial.print(b, HEX)` for a byte value (below 256): one hex
digit for values below 16, two otherwise. -/
def serialPrintHex (b : Nat) : List Char :=
  if b < 16 then [hexDigit b] else [hexDigit (b / 16), hexDigit (b % 16)]

/-- Model of `printHex2`: a leading `0` for values below 16, then the plain
hex rendering. -/
def printHex2 (b : Nat) : List Char :=
  (if b < 16 then ['0'] else []) ++ serialPrintHex b

/-- Decimal rendering helper (fuel-based; fuel `n + 1` always suffices). -/
def natDecimalAux : Nat → Nat → List Char
  | 0, _ => []
  | fuel + 1, n =>
    if n < 10 then [hexDigit n]
    else natDecimalAux fuel (n / 10) ++ [hexDigit (n % 10)]

/-- Decimal rendering of a number, as `Serial.print` renders it. -/
def natDecimal (n : Nat) : List Char := natDecimalAux (n + 1) n

/-- The hex-dump loop shared by both frame printers: each byte as `printHex2`
followed by a space, with a newline after every 16th byte; `i` is the index
of the current byte. -/
def dumpBytesAux : List Nat → Nat → List Char
  | [], _ => []
  | b :: rest, i =>
    printHex2 b ++ [' '] ++ (if (i + 1) % 16 = 0 then ['\n'] else []) ++
      dumpBytesAux rest (i + 1)

/-- Full hex dump of a buffer: the loop from index 0 plus the final
`Serial.println()`. -/
def dumpBytes (bytes : List Nat) : List Char :=
  dumpBytesAux bytes 0 ++ ['\n']

/-- Output of `printBufferFrame` (dedicated-receiver variant): header
`<TAG> frame (<n> bytes[, OVERFLOW]):` then the hex dump. -/
def printBufferFrame (tag : List Char) (ch : ChanState) : List Char :=
  tag ++ " frame (".toList ++ natDecimal ch.buf.length ++ " bytes".toList ++
    (if ch.overflow then ", OVERFLOW".toList else []) ++ "):".toList ++ ['\n'] ++
    dumpBytes ch.buf

/-- Output of `printFrame` (shared-receiver variant): the source prints
`ch.pos` and then goes straight to the overflow marker, without the
`" bytes"` literal of the dedicated variant. -/
def printFrame (tag : List Char) (ch : ChanState) : List Char :=
  tag ++ " frame (".toList ++ natDecimal ch.buf.length ++
    (if ch.overflow then ", OVERFLOW".toList else []) ++ "):".toList ++ ['\n'] ++
    dumpBytes ch.buf

/-- Spec-side hex dump for claim C9, written from the words of the spec:
space-separated two-hex-digit values, wrapped after every 16 bytes, plus the
closing newline. -/
def specDump (bytes : List Nat) : List Char :=
  (bytes.enum.map (fun p =>
    [hexDigit (p.2 / 16), hexDigit (p.2 % 16)] ++ [' '] ++
      (if (p.1 + 1) % 16 = 0 then ['\n'] else []))).flatten ++ ['\n']

/-- Diagnostic events of the dedicated-receiver flush path: the emitted frame
and any recognised known packet (name tag, offset, packet bytes). -/
inductive OutEvent where
  | frame (bytes : List Nat) (overflow : Bool)
  | known (tag : Char) (offset : Nat) (bytes : List Nat)
deriving DecidableEq

/-- Model of `printKnownPacketsIfAny`: for tag `M` scan for the motor packet,
for tag `L` for the LCD packet; a hit at offset `p` reports the `LEN` bytes
starting at `p`.  Only the stored bytes of the channel are consulted. -/
def printKnownPacketsIfAny (tag : Char) (ch : ChanState) : List OutEvent :=
  (if tag = 'M' then
    match findPacket ch.buf START_MOTOR LEN_MOTOR with
    | some p => [OutEvent.known 'M' p ((ch.buf.drop p).take LEN_MOTOR)]
    | none => []
  else []) ++
  (if tag = 'L' then
    match findPacket ch.buf START_LCD LEN_LCD with
    | some p => [OutEvent.known 'L' p ((ch.buf.drop p).take LEN_LCD)]
    | none => []
  else [])

/-- Model of the dedicated-variant `maybeFlushOnGap` with its diagnostic
events: on a flush, the source first prints the frame, then runs the known
packet scan on the same (not yet cleared) channel, and only then calls
`bufClear`. -/
def maybeFlushOnGapEv (ch : ChanState) (tag : Char) (now : Nat) : ChanState × List OutEvent :=
  if ch.buf.length = 0 then (ch, [])
  else if FRAME_GAP_MS ≤ now - ch.lastByteMs then
    (bufClear ch, [OutEvent.frame ch.buf ch.overflow] ++ printKnownPacketsIfAny tag ch)
  else (ch, [])

/-- Command replies, one constructor per `Serial.print` reply of the command
handlers (the exact reply text is not relevant to any claim). -/
inductive Reply where
  | okBaud
  | errBaud
  | okDebug (flag : Bool)
  | errDebug
  | errUnknown
deriving DecidableEq

/-- Global state of the dedicated-receiver sketch. -/
structure MegaState where
  sniffBaud : Nat
  debugBytes : Bool
  chM : ChanState
  chL : ChanState
deriving DecidableEq

/-- Channel identity in the shared-receiver sketch. -/
inductive ChanId where
  | M
  | L
deriving DecidableEq

/-- The other channel. -/
def flipChan : ChanId → ChanId
  | ChanId.M => ChanId.L
  | ChanId.L => ChanId.M

/-- Global state of the shared-receiver sketch.  `active` is the channel
whose SoftwareSerial port is currently listening; the library guarantees a
single listener, so a plain field models it. -/
structure SharedState where
  sniffBaud : Nat
  debugBytes : Bool
  chM : ChanState
  chL : ChanState
  active : ChanId
  lastSwitchMs : Nat
deriving DecidableEq

/-- Model of the dedicated-variant `applySniffBaud`: store the new rate and
reply OK.  Restarting `Serial2`/`Serial3` touches only the UART hardware; no
field of the modelled state other than `sniffBaud` is written — in
particular the channel buffers are left as they are. -/
def applySniffBaudMega (st : MegaState) (newBaud : Nat) : MegaState × List Reply :=
  ({ st with sniffBaud := newBaud }, [Reply.okBaud])

/-- Model of the shared-variant `applySniffBaud`: reject a zero rate, else
store it and restart the soft serials.  The listener restore of
`restartSoftSerial` concerns only the SoftwareSerial library objects; the
channel buffers are not touched. -/
def applySniffBaudShared (st : SharedState) (b : Nat) : SharedState × List Reply :=
  if b = 0 then (st, [Reply.errBaud])
  else ({ st with sniffBaud := b }, [Reply.okBaud])

/-- Whitespace test of `String::trim` (C `isspace`). -/
def isWs (c : Char) : Bool :=
  c = ' ' || c = '\t' || c = '\n' || c = '\x0b' || c = '\x0c' || c = '\r'

/-- Model of `String::trim`: drop leading and trailing whitespace. -/
def trimChars (s : List Char) : List Char :=
  ((s.dropWhile isWs).reverse.dropWhile isWs).reverse

/-- Leading-digit parser of C `atol`: accumulate decimal digits, stop at the
first non-digit. -/
def parseDigits : List Char → Nat → Nat
  | [], acc => acc
  | c :: rest, acc =>
    if c.isDigit then parseDigits rest (acc * 10 + (c.toNat - 48)) else acc

/-- Model of Arduino `String::toInt` (C `atol`) on an already trimmed string:
optional sign, then leading digits; no digits yield 0.  The `long` overflow
behaviour of C is not modelled (the parsed value is kept exact). -/
def strToInt (s : List Char) : Int :=
  match s with
  | '-' :: rest => -(parseDigits rest 0 : Int)
  | '+' :: rest => (parseDigits rest 0 : Int)
  | _ => (parseDigits s 0 : Int)

/-- C conversion of a signed value to `uint32_t`: reduction mod `2^32`. -/
def intToUInt32 (i : Int) : Nat := (i % (2 ^ 32 : Int)).toNat

/-- True-like tokens accepted by the `D=` branch. -/
def trueTokens : List (List Char) :=
  ["true".toList, "\"true\"".toList, "1".toList, "on".toList]

/-- False-like tokens accepted by the `D=` branch. -/
def falseTokens : List (List Char) :=
  ["false".toList, "\"false\"".toList, "0".toList, "off".toList]

/-- Model of the dedicated-variant `handleCommandLine`: trim, ignore empty
lines, match the uppercased head against `B=` and `D=`; the `B=` branch
parses the original (not uppercased) remainder, rejects values `≤ 0`, and
otherwise applies the rate cast to `uint32_t`. -/
def handleCommandLineMega (st : MegaState) (line : List Char) : MegaState × List Reply :=
  let l := trimChars line
  if l = [] then (st, [])
  else
    let u := l.map Char.toUpper
    if u.take 2 = ['B', '='] then
      let num := trimChars (l.drop 2)
      let b := strToInt num
      if b ≤ 0 then (st, [Reply.errBaud])
      else applySniffBaudMega st (intToUInt32 b)
    else if u.take 2 = ['D', '='] then
      let v := (trimChars (l.drop 2)).map Char.toLower
      if v ∈ trueTokens then ({ st with debugBytes := true }, [Reply.okDebug true])
      else if v ∈ falseTokens then ({ st with debugBytes := false }, [Reply.okDebug false])
      else (st, [Reply.errDebug])
    else (st, [Reply.errUnknown])

/-- Model of the shared-variant `handleCommandLine`: identical shape, except
that the `B=` branch performs no sign check — it casts `toInt` straight to
`uint32_t` and passes the result to `applySniffBaud`, which only rejects 0. -/
def handleCommandLineShared (st : SharedState) (line : List Char) : SharedState × List Reply :=
  let l := trimChars line
  if l = [] then (st, [])
  else
    let u := l.map Char.toUpper
    if u.take 2 = ['B', '='] then
      applySniffBaudShared st (intToUInt32 (strToInt (trimChars (l.drop 2))))
    else if u.take 2 = ['D', '='] then
      let v := (trimChars (l.drop 2)).map Char.toLower
      if v ∈ trueTokens then ({ st with debugBytes := true }, [Reply.okDebug true])
      else if v ∈ falseTokens then ({ st with debugBytes := false }, [Reply.okDebug false])
      else (st, [Reply.errDebug])
    else (st, [Reply.errUnknown])

/-- Model of `switchListener`: flip the listening channel and stamp the
switch time. -/
def switchListener (st : SharedState) (now : Nat) : SharedState :=
  { st with active := flipChan st.active, lastSwitchMs := now }

/-- Drain of the shared loop: the incoming bytes reach only the currently
active channel (bytes on the inactive line are physically lost and do not
appear in the model input). -/
def drainActive (st : SharedState) (now : Nat) (incoming : List Nat) : SharedState :=
  match st.active with
  | ChanId.M => { st with chM := incoming.foldl (fun c b => bufAdd c b now) st.chM }
  | ChanId.L => { st with chL := incoming.foldl (fun c b => bufAdd c b now) st.chL }

/-- The two `checkFlush` calls of the shared loop, on channel M then L. -/
def checkFlushShared (st : SharedState) (now : Nat) : SharedState × List SnifferFrame :=
  let pM := maybeFlushOnGap st.chM now
  let pL := maybeFlushOnGap st.chL now
  ({ st with chM := pM.1, chL := pL.1 }, pM.2.toList ++ pL.2.toList)

/-- The time-slice check at the end of the shared loop: switch only when
`now - lastSwitchMs` strictly exceeds `SWITCH_TIMEOUT_MS` (the source
comparison is `>`). -/
def applySwitchCheck (st : SharedState) (now : Nat) : SharedState :=
  if SWITCH_TIMEOUT_MS < now - st.lastSwitchMs then switchListener st now else st

/-- One iteration of the shared-variant `loop` (with no pending PC command):
drain the active channel, then the two gap-flush checks, then the time-slice
switch check — in that order. -/
def loopShared (st : SharedState) (now : Nat) (incoming : List Nat) : SharedState × List SnifferFrame :=
  let st1 := drainActive st now incoming
  let p := checkFlushShared st1 now
  let st2 :=
    if SWITCH_TIMEOUT_MS < now - p.1.lastSwitchMs then switchListener p.1 now
    else p.1
  (st2, p.2)

/-- Claim C8 buffer: `[0x00, 0x43, 0x01 .. 0x06, chk]` with
`chk = (1+2+3+4+5+6+0x43) % 256 = 0x58`. -/
def bufC8 : List Nat := [0x00, 0x43, 0x01, 0x02, 0x03, 0x04, 0x05, 0x06, 0x58]

/-- A complete 9-byte motor packet (checksum `0x43+1+..+7 = 95`), used as a
concrete flush witness. -/
def motorPacket9 : List Nat := [0x43, 1, 2, 3, 4, 5, 6, 7, 95]

/-- Concrete 129-byte delivery trace (one byte per millisecond), used as the
capacity counterexample. -/
def bigDelivery : List (Nat × Option Nat) :=
  (List.range 129).map (fun i => (i, some 0))

/-- Concrete dedicated-variant state with a partially accumulated frame. -/
def stC4 : MegaState := ⟨9600, false, ⟨[1, 2, 3], false, 0⟩, chInit⟩

/-- Concrete dedicated-variant state with default configuration. -/
def stM0 : MegaState := ⟨9600, false, chInit, chInit⟩

/-- Concrete shared-variant state with default configuration (channel M
listening, as after `setup`). -/
def stS0 : SharedState := ⟨9600, false, chInit, chInit, ChanId.M, 0⟩

/-- The checksum fold keeps its accumulator below 256 and computes the sum of
the listed bytes mod 256. -/
lemma chkLoop_general (bs : List Nat) :
    ∀ c : Nat, c < 256 → bs.foldl (fun chk b => chk8_add b chk) c = (bs.sum + c) % 256 := by
  induction bs with
  | nil => intro c hc; simp [Nat.mod_eq_of_lt hc]
  | cons b t ih =>
    intro c hc
    have h1 : chk8_add b c < 256 := Nat.mod_lt _ (by omega)
    calc (b :: t).foldl (fun chk b => chk8_add b chk) c
        = t.foldl (fun chk b => chk8_add b chk) (chk8_add b c) := by simp
      _ = (t.sum + chk8_add b c) % 256 := ih (chk8_add b c) h1
      _ = ((b :: t).sum + c) % 256 := by simp only [chk8_add, List.sum_cons]; omega

/-- The inner loop of `findPacket` computes the byte sum mod 256. -/
lemma chkLoop_eq_sum (bs : List Nat) : chkLoop bs = bs.sum % 256 := by
  simpa using chkLoop_general bs 0 (by omega)

/-- A failed scan means no candidate offset in the scanned range passes both
the start-byte test and the checksum test. -/
lemma scanFrom_none_forall (buf : List Nat) (start len : Nat) :
    ∀ n i, scanFrom buf start len i n = none →
      ∀ j, i ≤ j → j < i + n →
        ¬(buf.getD j 0 = start ∧
          chkLoop ((buf.drop j).take (len - 1)) = buf.getD (j + len - 1) 0) := by
  intro n
  induction n with
  | zero => intro i _ j _ hjn; omega
  | succ n ih =>
    intro i h j hij hjn
    simp only [scanFrom] at h
    by_cases hs : buf.getD i 0 = start
    · rw [if_pos hs] at h
      by_cases hc : chkLoop ((buf.drop i).take (len - 1)) = buf.getD (i + len - 1) 0
      · rw [if_pos hc] at h; exact absurd h (by simp)
      · rw [if_neg hc] at h
        rcases Nat.eq_or_lt_of_le hij with rfl | hlt
        · exact fun hh => hc hh.2
        · exact ih (i + 1) h j hlt (by omega)
    · rw [if_neg hs] at h
      rcases Nat.eq_or_lt_of_le hij with rfl | hlt
      · exact fun hh => hs hh.1
      · exact ih (i + 1) h j hlt (by omega)

/-- A successful scan returns an offset in range that passes both tests, and
every earlier offset in range fails one of the tests. -/
lemma scanFrom_some_spec (buf : List Nat) (start len : Nat) :
    ∀ n i r, scanFrom buf start len i n = some r →
      i ≤ r ∧ r < i + n ∧
      (buf.getD r 0 = start ∧
        chkLoop ((buf.drop r).take (len - 1)) = buf.getD (r + len - 1) 0) ∧
      ∀ j, i ≤ j → j < r →
        ¬(buf.getD j 0 = start ∧
          chkLoop ((buf.drop j).take (len - 1)) = buf.getD (j + len - 1) 0) := by
  intro n
  induction n with
  | zero => intro i r h; simp [scanFrom] at h
  | succ n ih =>
    intro i r h
    simp only [scanFrom] at h
    by_cases hs : buf.getD i 0 = start
    · rw [if_pos hs] at h
      by_cases hc : chkLoop ((buf.drop i).take (len - 1)) = buf.getD (i + len - 1) 0
      · rw [if_pos hc] at h
        have hr : i = r := by simpa using h
        subst hr
        exact ⟨Nat.le_refl i, by omega, ⟨hs, hc⟩, fun j h1 h2 => by omega⟩
      · rw [if_neg hc] at h
        obtain ⟨h1, h2, h3, h4⟩ := ih (i + 1) r h
        refine ⟨by omega, by omega, h3, fun j hj1 hj2 => ?_⟩
        rcases Nat.eq_or_lt_of_le hj1 with rfl | hlt
        · exact fun hh => hc hh.2
        · exact h4 j hlt hj2
    · rw [if_neg hs] at h
      obtain ⟨h1, h2, h3, h4⟩ := ih (i + 1) r h
      refine ⟨by omega, by omega, h3, fun j hj1 hj2 => ?_⟩
      rcases Nat.eq_or_lt_of_le hj1 with rfl | hlt
      · exact fun hh => hs hh.1
      · exact h4 j hlt hj2

/-- The code hit condition coincides with the spec matching predicate on
offsets whose window fits in the buffer. -/
lemma scanHit_iff_specMatchAt (buf : List Nat) (start len j : Nat)
    (hj : j + len ≤ buf.length) :
    (buf.getD j 0 = start ∧
      chkLoop ((buf.drop j).take (len - 1)) = buf.getD (j + len - 1) 0) ↔
    specMatchAt buf start len j := by
  unfold specMatchAt
  rw [chkLoop_eq_sum]
  constructor
  · rintro ⟨h1, h2⟩; exact ⟨hj, h1, h2⟩
  · rintro ⟨_, h1, h2⟩; exact ⟨h1, h2⟩

/-- C1: for every buffer and packet spec with total length at least 2, the
known-packet scan reports the smallest offset whose window fits, starts with
the start byte, and whose additive mod-256 checksum over all window bytes
but the last equals the last window byte; it reports at most one offset, and
reports none exactly when no offset matches. -/
theorem C1_findPacket_first_match (buf : List Nat) (start len : Nat) (hlen : 2 ≤ len) :
    (∀ r, findPacket buf start len = some r →
        specMatchAt buf start len r ∧ ∀ j, j < r → ¬ specMatchAt buf start len j) ∧
    (findPacket buf start len = none → ∀ j, ¬ specMatchAt buf start len j) := by
  unfold findPacket
  by_cases hb : buf.length < len
  · have hcond : (decide (len < 2) || decide (buf.length < len)) = true := by
      simp [hb]
    rw [if_pos hcond]
    refine ⟨fun r hr => absurd hr (by simp), fun _ j hm => ?_⟩
    have := hm.1
    omega
  · have hcond : (decide (len < 2) || decide (buf.length < len)) = false := by
      simp; omega
    rw [if_neg (by simp [hcond])]
    constructor
    · intro r hr
      obtain ⟨_, h2, h3, h4⟩ := scanFrom_some_spec buf start len (buf.length + 1 - len) 0 r hr
      have hrfit : r + len ≤ buf.length := by omega
      refine ⟨(scanHit_iff_specMatchAt buf start len r hrfit).1 h3, fun j hj hm => ?_⟩
      have hjfit : j + len ≤ buf.length := hm.1
      exact h4 j (by omega) hj ((scanHit_iff_specMatchAt buf start len j hjfit).2 hm)
    · intro hnone j hm
      have hjfit : j + len ≤ buf.length := hm.1
      have := scanFrom_none_forall buf start len (buf.length + 1 - len) 0 hnone j (by omega)
        (by omega)
      exact this ((scanHit_iff_specMatchAt buf start len j hjfit).2 hm)

/-- Witness for C1 on a concrete matching buffer: a 3-byte packet with start
byte 0x43 and valid checksum is reported at offset 0. -/
theorem C1_witness :
    specMatchAt [67, 1, 68] 67 3 0 ∧ ∀ j, j < 0 → ¬ specMatchAt [67, 1, 68] 67 3 j :=
  (C1_findPacket_first_match [67, 1, 68] 67 3 (by omega)).1 0 (by decide)

/-- Counterexample for C8 as stated: the 9-byte buffer cannot contain a
9-byte packet at offset 1 (that would need 10 bytes), so the scan with spec
`start = 0x43, length = 9` reports no match rather than offset 1. -/
theorem C8_counterexample :
    findPacket bufC8 START_MOTOR 9 = none ∧ findPacket bufC8 START_MOTOR 9 ≠ some 1 := by
  decide

/-- C8 amended: with total length 8 — the length the quoted checksum
`(1+2+3+4+5+6+0x43) % 256` actually encodes — the scan of the same buffer
fails at offset 0 (byte 0 is 0x00) and succeeds at offset 1, reporting
offset 1 and the 8 bytes starting at index 1. -/
theorem C8_amended_scan :
    findPacket bufC8 START_MOTOR 8 = some 1 ∧
    ¬ specMatchAt bufC8 START_MOTOR 8 0 ∧
    (bufC8.drop 1).take 8 = [0x43, 0x01, 0x02, 0x03, 0x04, 0x05, 0x06, 0x58] := by
  refine ⟨by decide, ?_, by decide⟩
  intro hm
  exact absurd hm.2.1 (by decide)

/-- Truncating a list before appending more elements does not change the
truncation of the whole. -/
lemma take_append_take (l m : List Nat) (n : Nat) :
    ((l.take n) ++ m).take n = (l ++ m).take n := by
  rcases le_or_lt n l.length with h | h
  · rw [List.take_append_eq_append_take, List.take_append_eq_append_take,
      List.take_take, List.length_take]
    have e1 : min n n = n := by omega
    have e2 : n - min n l.length = 0 := by omega
    have e3 : n - l.length = 0 := by omega
    simp [e1, e2, e3]
  · rw [List.take_of_length_le (Nat.le_of_lt h)]

/-- A trace that delivers no byte leaves the last-byte time at its seed. -/
lemma lastByteTimeAux_no_bytes :
    ∀ (tr : List (Nat × Option Nat)) (t0 : Nat),
      cycleBytes tr = [] → lastByteTimeAux t0 tr = t0 := by
  intro tr
  induction tr with
  | nil => intro t0 _; rfl
  | cons hd tl ih =>
    obtain ⟨t, ob⟩ := hd
    cases ob with
    | some b => intro t0 h; simp [cycleBytes] at h
    | none =>
      intro t0 h
      simp only [cycleBytes, List.filterMap_cons] at h
      exact ih t0 h

/-- Adding one byte always stamps the arrival time. -/
lemma bufAdd_lastByteMs (ch : ChanState) (b t : Nat) : (bufAdd ch b t).lastByteMs = t := by
  unfold bufAdd; split <;> rfl

/-- Adding one byte to a channel within capacity yields the truncated
append. -/
lemma bufAdd_buf (ch : ChanState) (b t : Nat) (h : ch.buf.length ≤ BUFLEN) :
    (bufAdd ch b t).buf = (ch.buf ++ [b]).take BUFLEN := by
  by_cases hf : ch.buf.length < BUFLEN
  · have : (ch.buf ++ [b]).length ≤ BUFLEN := by simp; omega
    simp [bufAdd, hf, List.take_of_length_le this]
  · have hl : ch.buf.length = BUFLEN := by omega
    rw [List.take_append_eq_append_take]
    simp [bufAdd, hf, hl, List.take_of_length_le (Nat.le_of_eq hl)]

/-- Overflow after one add: previous flag, or the buffer was already full. -/
lemma bufAdd_overflow (ch : ChanState) (b t : Nat) (h : ch.buf.length ≤ BUFLEN) :
    (bufAdd ch b t).overflow
      = (ch.overflow || decide (BUFLEN < ch.buf.length + 1)) := by
  by_cases hf : ch.buf.length < BUFLEN
  · have : ¬ BUFLEN < ch.buf.length + 1 := by omega
    simp [bufAdd, hf, this]
  · have : BUFLEN < ch.buf.length + 1 := by omega
    simp [bufAdd, hf, this]

/-- Capacity is preserved by one add. -/
lemma bufAdd_length_le (ch : ChanState) (b t : Nat) (h : ch.buf.length ≤ BUFLEN) :
    (bufAdd ch b t).buf.length ≤ BUFLEN := by
  by_cases hf : ch.buf.length < BUFLEN
  · simp [bufAdd, hf]; omega
  · simpa [bufAdd, hf] using h

/-- Capacity is preserved by the gap-flush test. -/
lemma flush_length_le (ch : ChanState) (t : Nat) (h : ch.buf.length ≤ BUFLEN) :
    (maybeFlushOnGap ch t).1.buf.length ≤ BUFLEN := by
  unfold maybeFlushOnGap
  by_cases h0 : ch.buf.length = 0
  · rw [if_pos h0]; exact h
  · rw [if_neg h0]
    by_cases hg : FRAME_GAP_MS ≤ t - ch.lastByteMs
    · rw [if_pos hg]; simp [bufClear]
    · rw [if_neg hg]; exact h

/-- Capacity invariant along any trace. -/
lemma runCycles_capacity :
    ∀ (tr : List (Nat × Option Nat)) (ch : ChanState),
      ch.buf.length ≤ BUFLEN → (runCycles ch tr).1.buf.length ≤ BUFLEN := by
  intro tr
  induction tr with
  | nil => intro ch h; exact h
  | cons hd tl ih =>
    obtain ⟨t, ob⟩ := hd
    intro ch h
    have h1 : (match ob with | some b => bufAdd ch b t | none => ch).buf.length ≤ BUFLEN := by
      cases ob with
      | some b => exact bufAdd_length_le ch b t h
      | none => exact h
    simp only [runCycles]
    exact ih _ (flush_length_le _ t h1)

/-- Splitting a trace splits the run. -/
lemma runCycles_append (a b : List (Nat × Option Nat)) :
    ∀ ch, runCycles ch (a ++ b)
      = ((runCycles (runCycles ch a).1 b).1,
         (runCycles ch a).2 ++ (runCycles (runCycles ch a).1 b).2) := by
  induction a with
  | nil => intro ch; simp [runCycles]
  | cons hd tl ih =>
    obtain ⟨t, ob⟩ := hd
    intro ch
    simp only [List.cons_append, runCycles, List.append_eq]
    rw [ih]
    simp [List.append_assoc]

/-- Main delivery lemma: along a `goodDelivery` trace no flush fires, the
buffer accumulates the delivered bytes (truncated at capacity), the overflow
flag records whether capacity was exceeded, and the last-byte time tracks
the last arrival.  `lastT`/`hasByte` thread the invariant that the channel
last-byte time equals the time of the most recent byte. -/
lemma runCycles_delivery :
    ∀ (tr : List (Nat × Option Nat)) (ch : ChanState) (lastT : Nat) (hasByte : Bool),
      goodDelivery lastT hasByte tr = true →
      (hasByte = true → ch.lastByteMs = lastT) →
      (hasByte = false → ch.buf = []) →
      ch.buf.length ≤ BUFLEN →
      (runCycles ch tr).2 = [] ∧
      (runCycles ch tr).1.buf = (ch.buf ++ cycleBytes tr).take BUFLEN ∧
      (runCycles ch tr).1.overflow
        = (ch.overflow || decide (BUFLEN < ch.buf.length + (cycleBytes tr).length)) ∧
      (runCycles ch tr).1.lastByteMs
        = (if cycleBytes tr = [] then ch.lastByteMs else lastByteTimeAux lastT tr) := by
  intro tr
  induction tr with
  | nil =>
    intro ch lastT hasByte _ _ _ hlen
    refine ⟨rfl, ?_, ?_, ?_⟩
    · simp [runCycles, cycleBytes, List.take_of_length_le hlen]
    · show ch.overflow
        = (ch.overflow || decide (BUFLEN < ch.buf.length + (cycleBytes []).length))
      rw [decide_eq_false (by simp [cycleBytes]; omega), Bool.or_false]
    · simp [runCycles, cycleBytes, lastByteTimeAux]
  | cons hd tl ih =>
    obtain ⟨t, ob⟩ := hd
    intro ch lastT hasByte hg hB hNB hlen
    cases ob with
    | some b =>
      have hg1 : goodDelivery t true tl = true := by
        simp only [goodDelivery, Bool.and_eq_true] at hg
        exact hg.2
      have h1buf : (bufAdd ch b t).buf = (ch.buf ++ [b]).take BUFLEN :=
        bufAdd_buf ch b t hlen
      have h1len : (bufAdd ch b t).buf.length ≤ BUFLEN := bufAdd_length_le ch b t hlen
      have h1last : (bufAdd ch b t).lastByteMs = t := bufAdd_lastByteMs ch b t
      have h1ne : ¬ (bufAdd ch b t).buf.length = 0 := by
        rw [h1buf, List.length_take]
        simp [BUFLEN]
      have hnof : maybeFlushOnGap (bufAdd ch b t) t = (bufAdd ch b t, none) := by
        unfold maybeFlushOnGap
        rw [if_neg h1ne, if_neg (by rw [h1last]; simp [FRAME_GAP_MS])]
      obtain ⟨ih1, ih2, ih3, ih4⟩ :=
        ih (bufAdd ch b t) t true hg1 (fun _ => h1last)
          (fun hf => by cases hf) h1len
      have hcb : cycleBytes ((t, some b) :: tl) = b :: cycleBytes tl := by
        simp [cycleBytes]
      refine ⟨?_, ?_, ?_, ?_⟩
      · simp only [runCycles, hnof]
        simpa using ih1
      · simp only [runCycles, hnof]
        rw [ih2, h1buf, take_append_take, hcb]
        simp [List.append_assoc]
      · simp only [runCycles, hnof]
        rw [ih3, bufAdd_overflow ch b t hlen, h1buf, List.length_take, hcb]
        simp only [List.length_append, List.length_cons, List.length_nil, Nat.zero_add]
        rcases Nat.lt_or_ge ch.buf.length BUFLEN with hf | hf
        · have e1 : ¬ BUFLEN < ch.buf.length + 1 := by omega
          have e2 : min BUFLEN (ch.buf.length + 1) = ch.buf.length + 1 := by omega
          rw [e2]
          simp only [decide_eq_false e1, Bool.or_false]
          have e3 : (BUFLEN < ch.buf.length + 1 + (cycleBytes tl).length)
              ↔ (BUFLEN < ch.buf.length + ((cycleBytes tl).length + 1)) := by omega
          rw [decide_eq_decide.mpr e3]
        · have e1 : BUFLEN < ch.buf.length + 1 := by omega
          have e2 : BUFLEN < ch.buf.length + ((cycleBytes tl).length + 1) := by omega
          simp [decide_eq_true e1, decide_eq_true e2]
      · simp only [runCycles, hnof]
        rw [ih4, hcb]
        have hnil : (b :: cycleBytes tl) ≠ [] := by simp
        rw [if_neg hnil]
        show (if cycleBytes tl = [] then (bufAdd ch b t).lastByteMs else lastByteTimeAux t tl)
            = lastByteTimeAux lastT ((t, some b) :: tl)
        by_cases hc : cycleBytes tl = []
        · rw [if_pos hc, h1last]
          show t = lastByteTimeAux t tl
          exact (lastByteTimeAux_no_bytes tl t hc).symm
        · rw [if_neg hc]
          rfl
    | none =>
      have hg1 : goodDelivery lastT hasByte tl = true := by
        simp only [goodDelivery, Bool.and_eq_true] at hg
        exact hg.2
      have hgap : hasByte = true → t - lastT < FRAME_GAP_MS := by
        intro hhb
        simp only [goodDelivery, Bool.and_eq_true, Bool.or_eq_true, Bool.not_eq_true',
          decide_eq_true_eq, hhb] at hg
        rcases hg.1.2 with h | h
        · cases h
        · exact h
      have hnof : maybeFlushOnGap ch t = (ch, none) := by
        by_cases hb0 : ch.buf.length = 0
        · unfold maybeFlushOnGap; rw [if_pos hb0]
        · have hhb : hasByte = true := by
            cases hhb : hasByte
            · exact absurd (by rw [hNB hhb] ; rfl : ch.buf.length = 0) hb0
            · rfl
          have hlb : ch.lastByteMs = lastT := hB hhb
          unfold maybeFlushOnGap
          rw [if_neg hb0, if_neg (by rw [hlb]; have := hgap hhb; omega)]
      obtain ⟨ih1, ih2, ih3, ih4⟩ := ih ch lastT hasByte hg1 hB hNB hlen
      have hcb : cycleBytes ((t, none) :: tl) = cycleBytes tl := by
        simp [cycleBytes]
      refine ⟨?_, ?_, ?_, ?_⟩
      · simp only [runCycles, hnof]
        simpa using ih1
      · simp only [runCycles, hnof]
        rw [ih2, hcb]
      · simp only [runCycles, hnof]
        rw [ih3, hcb]
      · simp only [runCycles, hnof]
        rw [ih4, hcb]
        rfl

/-- C2 (amended with the capacity bound): a byte sequence of at most BUFLEN
bytes delivered with all inter-byte gaps below `FRAME_GAP_MS`, followed by a
gap-flush check at least `FRAME_GAP_MS` after the last byte, produces
exactly one frame carrying all delivered bytes in arrival order with
overflow false; the buffer is empty immediately afterwards, and an empty
channel never emits a frame. -/
theorem C2_single_frame_on_gap (delivery : List (Nat × Option Nat)) (T : Nat)
    (hgood : goodDelivery 0 false delivery = true)
    (hne : cycleBytes delivery ≠ [])
    (hlen : (cycleBytes delivery).length ≤ BUFLEN)
    (hT : FRAME_GAP_MS ≤ T - lastByteTimeAux 0 delivery) :
    (runCycles chInit (delivery ++ [(T, none)])).2 = [⟨cycleBytes delivery, false⟩] ∧
    (runCycles chInit (delivery ++ [(T, none)])).1.buf = [] ∧
    ∀ (ch : ChanState) (t : Nat), ch.buf = [] → (maybeFlushOnGap ch t).2 = none := by
  obtain ⟨h1, h2, h3, h4⟩ :=
    runCycles_delivery delivery chInit 0 false hgood (fun h => by cases h)
      (fun _ => rfl) (Nat.zero_le BUFLEN)
  have hSbuf : (runCycles chInit delivery).1.buf = cycleBytes delivery := by
    rw [h2]
    show (([] : List Nat) ++ cycleBytes delivery).take BUFLEN = cycleBytes delivery
    rw [List.nil_append, List.take_of_length_le hlen]
  have hSovf : (runCycles chInit delivery).1.overflow = false := by
    rw [h3]
    show (false || decide (BUFLEN < ([] : List Nat).length + (cycleBytes delivery).length))
        = false
    rw [Bool.false_or, decide_eq_false (by simp; omega)]
  have hSlast : (runCycles chInit delivery).1.lastByteMs = lastByteTimeAux 0 delivery := by
    rw [h4, if_neg hne]
  have hSne : ¬ (runCycles chInit delivery).1.buf.length = 0 := by
    rw [hSbuf]
    exact fun h0 => hne (List.eq_nil_of_length_eq_zero h0)
  have hflush : maybeFlushOnGap (runCycles chInit delivery).1 T
      = (bufClear (runCycles chInit delivery).1,
         some ⟨(runCycles chInit delivery).1.buf, (runCycles chInit delivery).1.overflow⟩) := by
    unfold maybeFlushOnGap
    rw [if_neg hSne, if_pos (by rw [hSlast]; exact hT)]
  refine ⟨?_, ?_, ?_⟩
  · rw [runCycles_append]
    simp only [runCycles, hflush, h1, hSbuf, hSovf]
    simp
  · rw [runCycles_append]
    simp only [runCycles, hflush]
    simp [bufClear]
  · intro ch t h
    simp [maybeFlushOnGap, h]

/-- Witness for C2 on a concrete two-byte delivery followed by a 30 ms gap. -/
theorem C2_witness :
    (runCycles chInit ([(0, some 65), (10, some 66)] ++ [(40, none)])).2
        = [⟨cycleBytes [(0, some 65), (10, some 66)], false⟩] ∧
    (runCycles chInit ([(0, some 65), (10, some 66)] ++ [(40, none)])).1.buf = [] ∧
    ∀ (ch : ChanState) (t : Nat), ch.buf = [] → (maybeFlushOnGap ch t).2 = none :=
  C2_single_frame_on_gap [(0, some 65), (10, some 66)] 40 (by decide) (by decide)
    (by decide) (by decide)

set_option maxRecDepth 100000 in
/-- Counterexample for C2 as stated: 129 bytes delivered with 1 ms gaps and
then silence produce one frame of only 128 bytes with overflow true, not a
frame of all 129 bytes with overflow false. -/
theorem C2_counterexample :
    goodDelivery 0 false bigDelivery = true ∧
    (cycleBytes bigDelivery).length = 129 ∧
    (runCycles chInit (bigDelivery ++ [(160, none)])).2
        = [⟨List.replicate 128 0, true⟩] ∧
    (runCycles chInit (bigDelivery ++ [(160, none)])).2
        ≠ [⟨cycleBytes bigDelivery, false⟩] := by
  refine ⟨by decide, by decide, by decide, by decide⟩

/-- C3: capacity and overflow invariants.  Length never exceeds capacity
after an add, a flush, or any trace; an add on a full buffer stores nothing,
sets overflow, and still stamps the arrival time; overflow, once set, is
never reset by an add, and a flush either leaves the state alone or clears
it; delivering `BUFLEN + k` bytes (k > 0) before a gap yields exactly one
frame of exactly the first BUFLEN bytes with overflow true, and leaves the
buffer empty. -/
theorem C3_capacity_overflow (ch : ChanState) (b t : Nat)
    (delivery : List (Nat × Option Nat)) (T k : Nat)
    (hcap : ch.buf.length ≤ BUFLEN)
    (hgood : goodDelivery 0 false delivery = true)
    (hk : (cycleBytes delivery).length = BUFLEN + k)
    (hkpos : 0 < k)
    (hT : FRAME_GAP_MS ≤ T - lastByteTimeAux 0 delivery) :
    (bufAdd ch b t).buf.length ≤ BUFLEN ∧
    (ch.buf.length = BUFLEN →
      (bufAdd ch b t).buf = ch.buf ∧ (bufAdd ch b t).overflow = true) ∧
    (bufAdd ch b t).lastByteMs = t ∧
    (ch.overflow = true → (bufAdd ch b t).overflow = true) ∧
    ((maybeFlushOnGap ch t).1 = ch ∨ (maybeFlushOnGap ch t).1 = bufClear ch) ∧
    (∀ tr : List (Nat × Option Nat), (runCycles ch tr).1.buf.length ≤ BUFLEN) ∧
    (runCycles chInit (delivery ++ [(T, none)])).2
        = [⟨(cycleBytes delivery).take BUFLEN, true⟩] ∧
    (runCycles chInit (delivery ++ [(T, none)])).1.buf = [] := by
  obtain ⟨h1, h2, h3, h4⟩ :=
    runCycles_delivery delivery chInit 0 false hgood (fun h => by cases h)
      (fun _ => rfl) (Nat.zero_le BUFLEN)
  have hne : cycleBytes delivery ≠ [] := by
    intro h0
    rw [h0] at hk
    simp [BUFLEN] at hk
    omega
  have hSbuf : (runCycles chInit delivery).1.buf = (cycleBytes delivery).take BUFLEN := by
    rw [h2]
    show (([] : List Nat) ++ cycleBytes delivery).take BUFLEN
        = (cycleBytes delivery).take BUFLEN
    rw [List.nil_append]
  have hSovf : (runCycles chInit delivery).1.overflow = true := by
    rw [h3]
    show (false || decide (BUFLEN < ([] : List Nat).length + (cycleBytes delivery).length))
        = true
    rw [Bool.false_or, decide_eq_true (by simp [hk]; omega)]
  have hSlast : (runCycles chInit delivery).1.lastByteMs = lastByteTimeAux 0 delivery := by
    rw [h4, if_neg hne]
  have hSne : ¬ (runCycles chInit delivery).1.buf.length = 0 := by
    rw [hSbuf, List.length_take, hk]
    simp [BUFLEN]
  have hflush : maybeFlushOnGap (runCycles chInit delivery).1 T
      = (bufClear (runCycles chInit delivery).1,
         some ⟨(runCycles chInit delivery).1.buf, (runCycles chInit delivery).1.overflow⟩) := by
    unfold maybeFlushOnGap
    rw [if_neg hSne, if_pos (by rw [hSlast]; exact hT)]
  refine ⟨bufAdd_length_le ch b t hcap, ?_, bufAdd_lastByteMs ch b t, ?_, ?_, ?_, ?_, ?_⟩
  · intro hfull
    have hnlt : ¬ ch.buf.length < BUFLEN := by omega
    constructor
    · simp [bufAdd, hnlt]
    · simp [bufAdd, hnlt]
  · intro hov
    by_cases hf : ch.buf.length < BUFLEN
    · simp [bufAdd, hf, hov]
    · simp [bufAdd, hf]
  · unfold maybeFlushOnGap
    by_cases h0 : ch.buf.length = 0
    · rw [if_pos h0]; exact Or.inl rfl
    · rw [if_neg h0]
      by_cases hg : FRAME_GAP_MS ≤ t - ch.lastByteMs
      · rw [if_pos hg]; exact Or.inr rfl
      · rw [if_neg hg]; exact Or.inl rfl
  · intro tr
    exact runCycles_capacity tr ch hcap
  · rw [runCycles_append]
    simp only [runCycles, hflush, h1, hSbuf, hSovf]
    simp
  · rw [runCycles_append]
    simp only [runCycles, hflush]
    simp [bufClear]

set_option maxRecDepth 100000 in
/-- Witness for C3: a full 128-byte channel drops a further byte but stamps
its time, and a concrete 129-byte delivery yields one 128-byte overflow
frame. -/
theorem C3_witness :
    (bufAdd ⟨List.replicate 128 7, false, 0⟩ 9 11).buf.length ≤ BUFLEN ∧
    ((List.replicate 128 7).length = BUFLEN →
      (bufAdd ⟨List.replicate 128 7, false, 0⟩ 9 11).buf = List.replicate 128 7 ∧
      (bufAdd ⟨List.replicate 128 7, false, 0⟩ 9 11).overflow = true) ∧
    (bufAdd ⟨List.replicate 128 7, false, 0⟩ 9 11).lastByteMs = 11 ∧
    (false = true → (bufAdd ⟨List.replicate 128 7, false, 0⟩ 9 11).overflow = true) ∧
    ((maybeFlushOnGap ⟨List.replicate 128 7, false, 0⟩ 11).1 = ⟨List.replicate 128 7, false, 0⟩ ∨
      (maybeFlushOnGap ⟨List.replicate 128 7, false, 0⟩ 11).1
        = bufClear ⟨List.replicate 128 7, false, 0⟩) ∧
    (∀ tr : List (Nat × Option Nat),
      (runCycles ⟨List.replicate 128 7, false, 0⟩ tr).1.buf.length ≤ BUFLEN) ∧
    (runCycles chInit (bigDelivery ++ [(160, none)])).2
        = [⟨(cycleBytes bigDelivery).take BUFLEN, true⟩] ∧
    (runCycles chInit (bigDelivery ++ [(160, none)])).1.buf = [] :=
  C3_capacity_overflow ⟨List.replicate 128 7, false, 0⟩ 9 11 bigDelivery 160 1
    (by decide) (by decide) (by decide) (by decide) (by decide)

/-- Counterexample for C4: after a successful `setBaud` (value 19200 > 0) a
previously non-empty channel buffer is still there in both variants — the
reconfiguration clears nothing. -/
theorem C4_counterexample :
    (applySniffBaudMega stC4 19200).1.chM.buf = [1, 2, 3] ∧
    (applySniffBaudMega stC4 19200).1.chM.buf ≠ [] ∧
    (applySniffBaudShared { stS0 with chM := ⟨[1, 2, 3], false, 0⟩ } 19200).1.chM.buf
      = [1, 2, 3] := by
  refine ⟨by decide, by decide, by decide⟩

/-- C4 amended: a successful `setBaud` updates only the configured rate; the
channel states (buffers, overflow flags, timestamps) are left untouched in
both variants, and a partially accumulated frame survives the change — a
later gap check still flushes the stale bytes as a frame. -/
theorem C4_amended_buffers_survive :
    (∀ (st : MegaState) (b : Nat),
      (applySniffBaudMega st b).1.chM = st.chM ∧
      (applySniffBaudMega st b).1.chL = st.chL ∧
      (applySniffBaudMega st b).1.sniffBaud = b ∧
      (applySniffBaudMega st b).1.debugBytes = st.debugBytes) ∧
    (∀ (st : SharedState) (b : Nat), b ≠ 0 →
      (applySniffBaudShared st b).1.chM = st.chM ∧
      (applySniffBaudShared st b).1.chL = st.chL ∧
      (applySniffBaudShared st b).1.sniffBaud = b) ∧
    (∀ (st : MegaState) (b t : Nat),
      st.chM.buf ≠ [] → FRAME_GAP_MS ≤ t - st.chM.lastByteMs →
      (maybeFlushOnGap (applySniffBaudMega st b).1.chM t).2
          = some ⟨st.chM.buf, st.chM.overflow⟩) := by
  refine ⟨fun st b => ⟨rfl, rfl, rfl, rfl⟩, fun st b hb => ?_, fun st b t hne hg => ?_⟩
  · simp [applySniffBaudShared, hb]
  · show (maybeFlushOnGap st.chM t).2 = some ⟨st.chM.buf, st.chM.overflow⟩
    unfold maybeFlushOnGap
    rw [if_neg (fun h0 => hne (List.eq_nil_of_length_eq_zero h0)), if_pos hg]

/-- Witness for C4 amended at concrete states: stale bytes `[1, 2, 3]` are
still flushed as a frame after the baud change. -/
theorem C4_witness :
    ((applySniffBaudMega stC4 19200).1.chM = stC4.chM ∧
      (applySniffBaudMega stC4 19200).1.chL = stC4.chL ∧
      (applySniffBaudMega stC4 19200).1.sniffBaud = 19200 ∧
      (applySniffBaudMega stC4 19200).1.debugBytes = stC4.debugBytes) ∧
    ((applySniffBaudShared stS0 19200).1.chM = stS0.chM ∧
      (applySniffBaudShared stS0 19200).1.chL = stS0.chL ∧
      (applySniffBaudShared stS0 19200).1.sniffBaud = 19200) ∧
    (maybeFlushOnGap (applySniffBaudMega stC4 19200).1.chM 30).2
        = some ⟨stC4.chM.buf, stC4.chM.overflow⟩ :=
  ⟨C4_amended_buffers_survive.1 stC4 19200,
   C4_amended_buffers_survive.2.1 stS0 19200 (by decide),
   C4_amended_buffers_survive.2.2 stC4 19200 30 (by decide) (by decide)⟩

/-- Drain does not touch the arbiter fields. -/
lemma drainActive_arbiter (st : SharedState) (now : Nat) (incoming : List Nat) :
    (drainActive st now incoming).active = st.active ∧
    (drainActive st now incoming).lastSwitchMs = st.lastSwitchMs := by
  cases hA : st.active <;> simp [drainActive, hA]

/-- Counterexample for C6: with `now - lastSwitch` exactly equal to the
time-slice (50 ms), the claimed `≥` rule would switch, but the code (strict
`>`) does not: the active channel and switch stamp are unchanged. -/
theorem C6_counterexample :
    SWITCH_TIMEOUT_MS ≤ 50 - stS0.lastSwitchMs ∧
    (loopShared stS0 50 []).1.active = stS0.active ∧
    (loopShared stS0 50 []).1.lastSwitchMs = stS0.lastSwitchMs := by
  refine ⟨by decide, by decide, by decide⟩

/-- C6 amended: each shared-loop cycle factors as drain, then the gap-flush
checks, then the time-slice check — the switch check runs after the flush
check, never before; the switch fires exactly when `now - lastSwitch`
STRICTLY exceeds `SWITCH_TIMEOUT_MS`, flipping the active channel and
stamping `lastSwitch := now`; each switch selects the other channel, so no
two consecutive switches select the same one. -/
theorem C6_amended_timeslice (st : SharedState) (now : Nat) (incoming : List Nat) :
    loopShared st now incoming
      = (applySwitchCheck (checkFlushShared (drainActive st now incoming) now).1 now,
         (checkFlushShared (drainActive st now incoming) now).2) ∧
    (loopShared st now incoming).1.active
      = (if SWITCH_TIMEOUT_MS < now - st.lastSwitchMs then flipChan st.active
         else st.active) ∧
    (loopShared st now incoming).1.lastSwitchMs
      = (if SWITCH_TIMEOUT_MS < now - st.lastSwitchMs then now else st.lastSwitchMs) ∧
    (∀ c : ChanId, flipChan c ≠ c) ∧
    (∀ c : ChanId, flipChan (flipChan c) = c) := by
  obtain ⟨hDA, hDL⟩ := drainActive_arbiter st now incoming
  have hPA : (checkFlushShared (drainActive st now incoming) now).1.active = st.active := hDA
  have hPL : (checkFlushShared (drainActive st now incoming) now).1.lastSwitchMs
      = st.lastSwitchMs := hDL
  refine ⟨rfl, ?_, ?_, ?_, ?_⟩
  · show (applySwitchCheck (checkFlushShared (drainActive st now incoming) now).1 now).active
        = _
    unfold applySwitchCheck
    rw [hPL]
    by_cases hc : SWITCH_TIMEOUT_MS < now - st.lastSwitchMs
    · rw [if_pos hc, if_pos hc]
      show flipChan (checkFlushShared (drainActive st now incoming) now).1.active = _
      rw [hPA]
    · rw [if_neg hc, if_neg hc]
      exact hPA
  · show (applySwitchCheck (checkFlushShared (drainActive st now incoming) now).1 now).lastSwitchMs
        = _
    unfold applySwitchCheck
    rw [hPL]
    by_cases hc : SWITCH_TIMEOUT_MS < now - st.lastSwitchMs
    · rw [if_pos hc, if_pos hc]
      rfl
    · rw [if_neg hc, if_neg hc]
      exact hPL
  · intro c; cases c <;> simp [flipChan]
  · intro c; cases c <;> rfl

/-- C10: whenever the dedicated-variant gap flush fires, the diagnostic
output is the frame event followed by the known-packet scan computed on the
very buffer just emitted (the not-yet-cleared channel), the scan result does
not depend on the overflow flag or the timestamp, and the channel buffer is
empty afterwards. -/
theorem C10_scan_before_clear (ch : ChanState) (tag : Char) (now : Nat)
    (h1 : ch.buf ≠ []) (h2 : FRAME_GAP_MS ≤ now - ch.lastByteMs) :
    maybeFlushOnGapEv ch tag now
      = (bufClear ch,
         OutEvent.frame ch.buf ch.overflow :: printKnownPacketsIfAny tag ch) ∧
    (∀ (ov : Bool) (lb : Nat),
      printKnownPacketsIfAny tag ⟨ch.buf, ov, lb⟩ = printKnownPacketsIfAny tag ch) ∧
    (bufClear ch).buf = [] := by
  refine ⟨?_, fun ov lb => rfl, rfl⟩
  unfold maybeFlushOnGapEv
  rw [if_neg (fun h0 => h1 (List.eq_nil_of_length_eq_zero h0)), if_pos h2]
  rfl

/-- Witness for C10 on an overflowed channel holding a complete motor
packet: the flush emits the frame and then the known-packet event computed
from those same bytes, although the overflow flag is set. -/
theorem C10_witness :
    maybeFlushOnGapEv ⟨motorPacket9, true, 0⟩ 'M' 30
      = (bufClear ⟨motorPacket9, true, 0⟩,
         OutEvent.frame motorPacket9 true
           :: printKnownPacketsIfAny 'M' ⟨motorPacket9, true, 0⟩) ∧
    (∀ (ov : Bool) (lb : Nat),
      printKnownPacketsIfAny 'M' ⟨motorPacket9, ov, lb⟩
        = printKnownPacketsIfAny 'M' ⟨motorPacket9, true, 0⟩) ∧
    (bufClear ⟨motorPacket9, true, 0⟩).buf = [] :=
  C10_scan_before_clear ⟨motorPacket9, true, 0⟩ 'M' 30 (by decide) (by decide)

/-- Dropping a prefix never lengthens a list. -/
lemma dropWhile_length_le (p : Char → Bool) :
    ∀ l : List Char, (l.dropWhile p).length ≤ l.length := by
  intro l
  induction l with
  | nil => simp
  | cons a t ih =>
    rw [List.dropWhile_cons]
    by_cases hp : p a
    · rw [if_pos hp]; simp; omega
    · rw [if_neg hp]

/-- A dropWhile that preserves the length is the identity. -/
lemma dropWhile_eq_self_of_length (p : Char → Bool) :
    ∀ l : List Char, (l.dropWhile p).length = l.length → l.dropWhile p = l := by
  intro l
  cases l with
  | nil => intro _; rfl
  | cons a t =>
    intro h
    rw [List.dropWhile_cons] at h ⊢
    by_cases hp : p a
    · rw [if_pos hp] at h
      have := dropWhile_length_le p t
      simp at h
      omega
    · rw [if_neg hp]

/-- The head of a list fixed by dropWhile does not satisfy the predicate. -/
lemma head_false_of_dropWhile_self (p : Char → Bool) (a : Char) (t : List Char)
    (h : (a :: t).dropWhile p = a :: t) : p a = false := by
  by_cases hp : p a
  · rw [List.dropWhile_cons, if_pos hp] at h
    have h1 := dropWhile_length_le p t
    have h2 := congrArg List.length h
    simp at h2
    omega
  · simpa using hp

/-- dropWhile skips nothing on an append whose parts it fixes. -/
lemma dropWhile_append_self (p : Char → Bool) (l m : List Char)
    (hl : l.dropWhile p = l) (hm : m.dropWhile p = m) :
    (l ++ m).dropWhile p = l ++ m := by
  cases l with
  | nil => simpa using hm
  | cons a t =>
    have hpa : p a = false := head_false_of_dropWhile_self p a t hl
    rw [List.cons_append, List.dropWhile_cons, if_neg (by simp [hpa])]

/-- A trimmed string is fixed by both directional trims. -/
lemma trimmed_parts (num : List Char) (h : trimChars num = num) :
    num.dropWhile isWs = num ∧ num.reverse.dropWhile isWs = num.reverse := by
  have hlen : ((num.dropWhile isWs).reverse.dropWhile isWs).length = num.length := by
    have := congrArg List.length h
    simpa [trimChars] using this
  have h1 : (num.dropWhile isWs).length ≤ num.length := dropWhile_length_le isWs num
  have h2 : ((num.dropWhile isWs).reverse.dropWhile isWs).length
      ≤ (num.dropWhile isWs).length := by
    have := dropWhile_length_le isWs (num.dropWhile isWs).reverse
    simpa using this
  have hx : (num.dropWhile isWs).length = num.length := by omega
  have hfix : num.dropWhile isWs = num := dropWhile_eq_self_of_length isWs num hx
  refine ⟨hfix, ?_⟩
  have hy : (num.reverse.dropWhile isWs).length = num.reverse.length := by
    rw [hfix] at hlen
    simpa using hlen
  exact dropWhile_eq_self_of_length isWs num.reverse hy

/-- Prepending two non-whitespace characters to a trimmed string gives a
trimmed string. -/
lemma trimChars_keep_head2 (c d : Char) (num : List Char)
    (hc : isWs c = false) (hd : isWs d = false) (h : trimChars num = num) :
    trimChars (c :: d :: num) = c :: d :: num := by
  obtain ⟨h1, h2⟩ := trimmed_parts num h
  unfold trimChars
  rw [List.dropWhile_cons, if_neg (by simp [hc])]
  have hrev : (c :: d :: num).reverse = (num.reverse ++ [d]) ++ [c] := by
    simp
  rw [hrev]
  rw [dropWhile_append_self isWs _ _
    (dropWhile_append_self isWs _ _ h2 (by rw [List.dropWhile_cons, if_neg (by simp [hd])]))
    (by rw [List.dropWhile_cons, if_neg (by simp [hc])])]
  simp

/-- C5 amended: on a trimmed numeric argument, the dedicated-variant handler
rejects every value `≤ 0` (including all negative and non-numeric inputs,
which parse to 0) with an error reply and no state change, and applies every
positive value; the shared-variant handler rejects exactly the arguments
whose `uint32_t` cast is 0 — a negative decimal wraps to a huge nonzero
value there and is applied instead of rejected. -/
theorem C5_amended_baud_validation :
    (∀ (st : MegaState) (num : List Char), trimChars num = num → strToInt num ≤ 0 →
      handleCommandLineMega st ('B' :: '=' :: num) = (st, [Reply.errBaud])) ∧
    (∀ (st : SharedState) (num : List Char), trimChars num = num →
      intToUInt32 (strToInt num) = 0 →
      handleCommandLineShared st ('B' :: '=' :: num) = (st, [Reply.errBaud])) ∧
    (∀ (st : MegaState) (num : List Char), trimChars num = num → 0 < strToInt num →
      handleCommandLineMega st ('B' :: '=' :: num)
        = ({ st with sniffBaud := intToUInt32 (strToInt num) }, [Reply.okBaud])) := by
  refine ⟨?_, ?_, ?_⟩
  · intro st num hnum hval
    have htrim : trimChars ('B' :: '=' :: num) = 'B' :: '=' :: num :=
      trimChars_keep_head2 'B' '=' num (by decide) (by decide) hnum
    simp only [handleCommandLineMega, htrim]
    rw [if_neg (by simp)]
    rw [if_pos (by simp)]
    show (if strToInt (trimChars num) ≤ 0 then (st, [Reply.errBaud])
        else applySniffBaudMega st (intToUInt32 (strToInt (trimChars num)))) = _
    rw [hnum, if_pos hval]
  · intro st num hnum hval
    have htrim : trimChars ('B' :: '=' :: num) = 'B' :: '=' :: num :=
      trimChars_keep_head2 'B' '=' num (by decide) (by decide) hnum
    simp only [handleCommandLineShared, htrim]
    rw [if_neg (by simp)]
    rw [if_pos (by simp)]
    show applySniffBaudShared st (intToUInt32 (strToInt (trimChars num))) = _
    rw [hnum]
    unfold applySniffBaudShared
    rw [if_pos hval]
  · intro st num hnum hval
    have htrim : trimChars ('B' :: '=' :: num) = 'B' :: '=' :: num :=
      trimChars_keep_head2 'B' '=' num (by decide) (by decide) hnum
    simp only [handleCommandLineMega, htrim]
    rw [if_neg (by simp)]
    rw [if_pos (by simp)]
    show (if strToInt (trimChars num) ≤ 0 then (st, [Reply.errBaud])
        else applySniffBaudMega st (intToUInt32 (strToInt (trimChars num)))) = _
    rw [hnum, if_neg (by omega)]
    rfl

/-- Witness for C5 amended: `B=0` is rejected by both handlers with no state
change, and `B=9600` is applied by the dedicated handler. -/
theorem C5_witness :
    handleCommandLineMega stM0 ('B' :: '=' :: ['0']) = (stM0, [Reply.errBaud]) ∧
    handleCommandLineShared stS0 ('B' :: '=' :: ['0']) = (stS0, [Reply.errBaud]) ∧
    handleCommandLineMega stM0 ('B' :: '=' :: ['9', '6', '0', '0'])
      = ({ stM0 with sniffBaud := intToUInt32 (strToInt ['9', '6', '0', '0']) },
         [Reply.okBaud]) :=
  ⟨C5_amended_baud_validation.1 stM0 ['0'] (by decide) (by decide),
   C5_amended_baud_validation.2.1 stS0 ['0'] (by decide) (by decide),
   C5_amended_baud_validation.2.2 stM0 ['9', '6', '0', '0'] (by decide) (by decide)⟩

/-- Counterexample for C5 as stated: the decimal value of `B=-1` is negative
(hence `≤ 0`), yet the shared-variant handler applies it — the `uint32_t`
cast turns it into 4294967295, the zero test passes, the configured rate
changes and an OK reply is produced instead of an error. -/
theorem C5_counterexample :
    strToInt ['-', '1'] ≤ 0 ∧
    handleCommandLineShared stS0 ('B' :: '=' :: ['-', '1'])
      = ({ stS0 with sniffBaud := 4294967295 }, [Reply.okBaud]) ∧
    (handleCommandLineShared stS0 ('B' :: '=' :: ['-', '1'])).1.sniffBaud
      ≠ stS0.sniffBaud := by
  refine ⟨by decide, by decide, by decide⟩

/-- The padded printer always produces exactly the two hex digits of the
byte value (high nibble, low nibble). -/
lemma printHex2_eq_pair (b : Nat) :
    printHex2 b = [hexDigit (b / 16), hexDigit (b % 16)] := by
  unfold printHex2 serialPrintHex
  by_cases hb : b < 16
  · rw [if_pos hb, if_pos hb, Nat.div_eq_of_lt hb, Nat.mod_eq_of_lt hb]
    rfl
  · rw [if_neg hb, if_neg hb]
    rfl

/-- The imperative dump loop agrees with the spec-side enumeration form. -/
lemma dumpBytesAux_eq_spec (bytes : List Nat) :
    ∀ i, dumpBytesAux bytes i
      = ((bytes.enumFrom i).map (fun p =>
          [hexDigit (p.2 / 16), hexDigit (p.2 % 16)] ++ [' '] ++
            (if (p.1 + 1) % 16 = 0 then ['\n'] else []))).flatten := by
  induction bytes with
  | nil => intro i; rfl
  | cons b t ih =>
    intro i
    show printHex2 b ++ [' '] ++ (if (i + 1) % 16 = 0 then ['\n'] else []) ++
        dumpBytesAux t (i + 1) = _
    rw [List.enumFrom_cons, List.map_cons, List.flatten_cons, printHex2_eq_pair, ih (i + 1)]

/-- The full dump of a buffer matches the documented format. -/
lemma dumpBytes_eq_specDump (bytes : List Nat) : dumpBytes bytes = specDump bytes := by
  unfold dumpBytes specDump
  rw [dumpBytesAux_eq_spec bytes 0]
  rfl

/-- C9 amended: both variants render the byte dump in the documented format
(space-separated two-hex-digit values, wrapped every 16 bytes) after a
header in the documented field order, but the shared-variant header omits
the `" bytes"` word after the count — the two headers are not identical. -/
theorem C9_amended_frame_format (tag : List Char) (ch : ChanState) :
    printBufferFrame tag ch
      = tag ++ " frame (".toList ++ natDecimal ch.buf.length ++ " bytes".toList ++
        (if ch.overflow then ", OVERFLOW".toList else []) ++ "):".toList ++ ['\n'] ++
        specDump ch.buf ∧
    printFrame tag ch
      = tag ++ " frame (".toList ++ natDecimal ch.buf.length ++
        (if ch.overflow then ", OVERFLOW".toList else []) ++ "):".toList ++ ['\n'] ++
        specDump ch.buf := by
  constructor
  · unfold printBufferFrame
    rw [dumpBytes_eq_specDump]
  · unfold printFrame
    rw [dumpBytes_eq_specDump]

/-- Counterexample for C9 as stated: on the same one-byte frame the two
variants print different header lines — the shared variant lacks
`" bytes"`. -/
theorem C9_counterexample :
    printBufferFrame ['M'] ⟨[0x05], false, 0⟩ ≠ printFrame ['M'] ⟨[0x05], false, 0⟩ ∧
    printBufferFrame ['M'] ⟨[0x05], false, 0⟩ = "M frame (1 bytes):\n05 \n".toList ∧
    printFrame ['M'] ⟨[0x05], false, 0⟩ = "M frame (1):\n05 \n".toList := by
  refine ⟨by decide, by decide, by decide⟩
